import Mathlib

/-!
Verification of the DCA backtesting front-end and of the spec-level
simulation/metrics contracts.

Numbers are embedded as rationals (`ℚ`), dates as day counts (`ℕ`).
Definitions follow the TypeScript sources; the handful of engine-side
definitions that have no source in this repository are modelled from the
specification and marked as such in their doc comments.
-/

namespace Backtesting

/-! ## Schedule generator and the two investment-count displays (C1)

`calculateInvestmentCount` embeds `ParameterPreview.tsx`:
`Math.floor(days / frequencyDays)` where `days = dateRange[1].diff(dateRange[0], 'day')`.

`expectedTrades` embeds the `EXPECTED_TRADES` line of `DCATerminalConfig.tsx`:
`Math.ceil(diff(end, start, 'day') / frequencyDays)`.

`scheduleDates` embeds the Schedule Generator contract (spec §4.1): the
intended dates `start, start+f, start+2f, ...` up to and including `end_date`.
-/

def calculateInvestmentCount (days frequencyDays : ℕ) : ℕ :=
  days / frequencyDays

def expectedTrades (days frequencyDays : ℕ) : ℕ :=
  (days + frequencyDays - 1) / frequencyDays

/-- Fuel-indexed generator of the intended dates: starting at `cur`, step by
`step1 + 1` while the date stays `≤ e`.  The fuel argument only serves
structural termination; `scheduleDates` supplies enough of it. -/
def scheduleDatesAux : ℕ → ℕ → ℕ → ℕ → List ℕ
  | 0, _, _, _ => []
  | fuel + 1, cur, e, step1 =>
    if cur ≤ e then cur :: scheduleDatesAux fuel (cur + (step1 + 1)) e step1 else []

/-- The intended investment dates of the schedule contract: `s, s+f, s+2f, ...`
up to `e` (empty when `f = 0`, which the contract excludes anyway). -/
def scheduleDates (s e f : ℕ) : List ℕ :=
  if f = 0 then [] else scheduleDatesAux (e + 1 - s) s e (f - 1)

lemma scheduleDatesAux_of_gt {cur e : ℕ} (h : e < cur) (fuel step1 : ℕ) :
    scheduleDatesAux fuel cur e step1 = [] := by
  cases fuel with
  | zero => rfl
  | succ n => simp [scheduleDatesAux, Nat.not_le.mpr h]

lemma scheduleDatesAux_length (step1 : ℕ) :
    ∀ fuel cur e, e + 1 - cur ≤ fuel → cur ≤ e →
      (scheduleDatesAux fuel cur e step1).length = (e - cur) / (step1 + 1) + 1 := by
  intro fuel
  induction fuel with
  | zero => intro cur e hfuel hle; omega
  | succ n ih =>
    intro cur e hfuel hle
    rw [scheduleDatesAux, if_pos hle]
    by_cases hnext : cur + (step1 + 1) ≤ e
    · rw [List.length_cons, ih (cur + (step1 + 1)) e (by omega) hnext]
      have hstep : step1 + 1 ≤ e - cur := by omega
      have hsub : e - (cur + (step1 + 1)) = e - cur - (step1 + 1) := by omega
      rw [hsub, Nat.div_eq_sub_div (Nat.succ_pos step1) hstep]
    · rw [scheduleDatesAux_of_gt (by omega),
        Nat.div_eq_of_lt (show e - cur < step1 + 1 by omega)]
      simp

lemma scheduleDates_length {f : ℕ} (hf : 0 < f) (s e : ℕ) (hse : s ≤ e) :
    (scheduleDates s e f).length = (e - s) / f + 1 := by
  have hf' : f - 1 + 1 = f := by omega
  rw [scheduleDates, if_neg (by omega), scheduleDatesAux_length (f - 1) _ s e le_rfl hse, hf']

/-- Ceiling division versus floor division: `expectedTrades` adds one to the
floor exactly when the frequency does not divide the span. -/
lemma expectedTrades_eq (d : ℕ) {f : ℕ} (hf : 0 < f) :
    expectedTrades d f = d / f + (if f ∣ d then 0 else 1) := by
  have hmod := Nat.div_add_mod d f
  have hlt : d % f < f := Nat.mod_lt _ hf
  rw [expectedTrades]
  by_cases h : d % f = 0
  · rw [if_pos (Nat.dvd_of_mod_eq_zero h)]
    rcases Nat.eq_zero_or_pos d with rfl | hd
    · simp [Nat.div_eq_of_lt (show f - 1 < f by omega)]
    · have h1 : d + f - 1 = (f - 1) + (d / f) * f := by
        have hc : (d / f) * f = f * (d / f) := Nat.mul_comm _ _
        omega
      rw [h1, Nat.add_mul_div_right _ _ hf,
        Nat.div_eq_of_lt (show f - 1 < f by omega)]
      omega
  · rw [if_neg (fun hh => h (Nat.mod_eq_zero_of_dvd hh))]
    have h1 : d + f - 1 = (d % f - 1) + (d / f + 1) * f := by
      have hc : (d / f + 1) * f = f * (d / f) + f := by ring
      omega
    rw [h1, Nat.add_mul_div_right _ _ hf,
      Nat.div_eq_of_lt (show d % f - 1 < f by omega)]
    omega

/-- C1, counterexample: for a 9-day range with a 3-day frequency, the
schedule contract has `9/3 + 1 = 4` intended dates, but the
parameter preview displays `floor(9/3) = 3` and the confirmation screen
displays `ceil(9/3) = 3`: neither equals the schedule's count. -/
theorem dca_C1_counterexample :
    calculateInvestmentCount 9 3 ≠ (scheduleDates 0 9 3).length ∧
    expectedTrades 9 3 ≠ (scheduleDates 0 9 3).length := by
  decide

/-- C1, amended: over a span of `d` days with frequency `f > 0`, the schedule
contract produces `floor(d/f) + 1` intended dates; the parameter preview shows
`floor(d/f)`, one less than that count; the confirmation screen shows
`ceil(d/f)`, which equals the schedule's count exactly when `f` does not
divide `d`; and the two displays agree exactly when `f` divides `d`. -/
theorem dca_C1_amended (d f : ℕ) (hf : 0 < f) :
    calculateInvestmentCount d f + 1 = (scheduleDates 0 d f).length ∧
    (expectedTrades d f = (scheduleDates 0 d f).length ↔ ¬ f ∣ d) ∧
    (calculateInvestmentCount d f = expectedTrades d f ↔ f ∣ d) := by
  have hlen : (scheduleDates 0 d f).length = d / f + 1 := by
    simpa using scheduleDates_length hf 0 d (Nat.zero_le d)
  have hceil := expectedTrades_eq d hf
  refine ⟨by simpa [calculateInvestmentCount] using hlen.symm, ?_, ?_⟩
  · rw [hlen, hceil]
    by_cases hdvd : f ∣ d <;> simp [hdvd]
  · rw [calculateInvestmentCount, hceil]
    by_cases hdvd : f ∣ d <;> simp [hdvd]

/-- Witness for `dca_C1_amended` at `d = 10`, `f = 3`. -/
theorem dca_C1_amended_witness :
    calculateInvestmentCount 10 3 + 1 = (scheduleDates 0 10 3).length ∧
    (expectedTrades 10 3 = (scheduleDates 0 10 3).length ↔ ¬ 3 ∣ 10) ∧
    (calculateInvestmentCount 10 3 = expectedTrades 10 3 ↔ 3 ∣ 10) :=
  dca_C1_amended 10 3 (by decide)

/-! ## The DCA backtest request builder (C2)

`runDCABacktest` embeds `services/backtest.ts`: it builds a `BacktestRequest`
with `strategy_id: 'dca_strategy'` and a `parameters` object holding exactly
`symbol`, `investment_amount` and `frequency_days`.  The caller
(`DCATerminalConfig.tsx`, `handleStartExecution`) passes an argument object
that additionally carries the exit-strategy configuration; those fields are
modelled here as the optional fields of `DCABacktestParams`, and the builder
simply never reads them. -/

inductive ParamValue where
  | str (s : String)
  | num (q : ℚ)
  | intval (n : ℕ)
deriving DecidableEq

/-- The argument object built by `handleStartExecution` (`backtestParams`):
schedule fields plus the exit-strategy configuration collected by the page. -/
structure DCABacktestParams where
  symbol : String
  investment_amount : ℚ
  frequency_days : ℕ
  start_date : String
  end_date : String
  initial_cash : ℚ
  exit_strategy : Option String
  profit_target : Option ℚ
  time_limit_months : Option ℕ
  batch_exit_levels : Option (List ℚ)
  batch_exit_ratios : Option (List ℚ)

/-- The HTTP request body of `POST /backtest/run` (`BacktestRequest` in
`services/backtest.ts`); `parameters` is a JSON object, modelled as an
association list. -/
structure BacktestRequest where
  strategy_id : String
  parameters : List (String × ParamValue)
  start_date : String
  end_date : String
  initial_cash : ℚ

def runDCABacktest (p : DCABacktestParams) : BacktestRequest :=
  { strategy_id := "dca_strategy"
    parameters := [("symbol", ParamValue.str p.symbol),
                   ("investment_amount", ParamValue.num p.investment_amount),
                   ("frequency_days", ParamValue.intval p.frequency_days)]
    start_date := p.start_date
    end_date := p.end_date
    initial_cash := p.initial_cash }

/-- The exit-strategy fields that `DCATerminalConfig.tsx` collects and passes
to `runDCABacktest`. -/
def exitStrategyKeys : List String :=
  ["exit_strategy", "profit_target", "time_limit_months",
   "batch_exit_levels", "batch_exit_ratios"]

/-- C2: the request built by `runDCABacktest` always has strategy id
`dca_strategy`, its parameters object holds exactly `symbol`,
`investment_amount` and `frequency_days` (with the caller's values), the
dates and initial cash are passed through at top level, and none of the
exit-strategy fields supplied by the caller appear in the request. -/
theorem dca_C2 (p : DCABacktestParams) :
    (runDCABacktest p).strategy_id = "dca_strategy" ∧
    (runDCABacktest p).parameters.map Prod.fst =
      ["symbol", "investment_amount", "frequency_days"] ∧
    (runDCABacktest p).parameters =
      [("symbol", ParamValue.str p.symbol),
       ("investment_amount", ParamValue.num p.investment_amount),
       ("frequency_days", ParamValue.intval p.frequency_days)] ∧
    (∀ k ∈ exitStrategyKeys, k ∉ (runDCABacktest p).parameters.map Prod.fst) ∧
    (runDCABacktest p).start_date = p.start_date ∧
    (runDCABacktest p).end_date = p.end_date ∧
    (runDCABacktest p).initial_cash = p.initial_cash := by
  refine ⟨rfl, rfl, rfl, ?_, rfl, rfl, rfl⟩
  intro k hk
  fin_cases hk <;> simp [runDCABacktest]

/-- Witness for `dca_C2` at a concrete argument object carrying a full
exit-strategy configuration. -/
theorem dca_C2_witness :
    (runDCABacktest
      { symbol := "510300", investment_amount := 1000, frequency_days := 30,
        start_date := "2021-01-01", end_date := "2024-01-01",
        initial_cash := 100000, exit_strategy := some "profit_target",
        profit_target := some 30, time_limit_months := some 36,
        batch_exit_levels := some [20, 40, 60],
        batch_exit_ratios := some [3/10, 1/2, 1] }).strategy_id = "dca_strategy" ∧
    "exit_strategy" ∉ (runDCABacktest
      { symbol := "510300", investment_amount := 1000, frequency_days := 30,
        start_date := "2021-01-01", end_date := "2024-01-01",
        initial_cash := 100000, exit_strategy := some "profit_target",
        profit_target := some 30, time_limit_months := some 36,
        batch_exit_levels := some [20, 40, 60],
        batch_exit_ratios := some [3/10, 1/2, 1] }).parameters.map Prod.fst := by
  refine ⟨(dca_C2 _).1, (dca_C2 _).2.2.2.1 "exit_strategy" ?_⟩
  simp [exitStrategyKeys]

/-! ## The execution failure handler (C8)

`handleExecutionFailure` embeds the `catch`/`finally` blocks of
`handleStartExecution` in `DCATerminalConfig.tsx`:

    const errorMessage = error?.response?.data?.detail ||
                         error?.message ||
                         '任务执行失败，请检查网络连接'
    setExecutionError(errorMessage)
    ...finally { setIsExecuting(false) }

JavaScript `||` skips falsy values, so a missing *or empty-string* field
falls through to the next alternative; `jsTruthy` captures exactly that. -/

structure JsError where
  detail : Option String
  message : Option String

def defaultExecutionErrorMessage : String := "任务执行失败，请检查网络连接"

def jsTruthy : Option String → Option String
  | none => none
  | some s => if s = "" then none else some s

def errorMessageOf (e : JsError) : String :=
  match jsTruthy e.detail with
  | some s => s
  | none =>
    match jsTruthy e.message with
    | some s => s
    | none => defaultExecutionErrorMessage

structure ExecutionUiState where
  executionError : String
  isExecuting : Bool

def handleExecutionFailure (e : JsError) (st : ExecutionUiState) : ExecutionUiState :=
  { st with executionError := errorMessageOf e, isExecuting := false }

lemma jsTruthy_ne_empty {o : Option String} {s : String}
    (h : jsTruthy o = some s) : s ≠ "" := by
  rcases o with _ | t
  · simp [jsTruthy] at h
  · by_cases ht : t = "" <;> simp [jsTruthy, ht] at h
    exact h ▸ ht

/-- C8: whenever the backtest call rejects, the handler sets a non-empty
error message — the response body's `detail` when it is a non-empty string,
otherwise the error's `message` when non-empty, otherwise the fixed default —
and clears the executing flag, for every error value and prior UI state. -/
theorem dca_C8 (e : JsError) (st : ExecutionUiState) :
    (handleExecutionFailure e st).executionError ≠ "" ∧
    (handleExecutionFailure e st).isExecuting = false ∧
    (∀ s, e.detail = some s → s ≠ "" →
      (handleExecutionFailure e st).executionError = s) ∧
    (jsTruthy e.detail = none → ∀ s, e.message = some s → s ≠ "" →
      (handleExecutionFailure e st).executionError = s) ∧
    (jsTruthy e.detail = none → jsTruthy e.message = none →
      (handleExecutionFailure e st).executionError = defaultExecutionErrorMessage) := by
  refine ⟨?_, rfl, ?_, ?_, ?_⟩
  · show errorMessageOf e ≠ ""
    rw [errorMessageOf]
    rcases hd : jsTruthy e.detail with _ | s
    · rcases hm : jsTruthy e.message with _ | s
      · simp [defaultExecutionErrorMessage]
      · simpa using jsTruthy_ne_empty hm
    · simpa using jsTruthy_ne_empty hd
  · intro s hs hne
    show errorMessageOf e = s
    rw [errorMessageOf, hs]
    simp [jsTruthy, hne]
  · intro hd s hs hne
    show errorMessageOf e = s
    rw [errorMessageOf, hd, hs]
    simp [jsTruthy, hne]
  · intro hd hm
    show errorMessageOf e = defaultExecutionErrorMessage
    rw [errorMessageOf, hd, hm]

/-- Witness for `dca_C8`: a rejection whose response detail is `"boom"`. -/
theorem dca_C8_witness :
    (handleExecutionFailure ⟨some "boom", none⟩ ⟨"", true⟩).executionError = "boom" ∧
    (handleExecutionFailure ⟨some "boom", none⟩ ⟨"", true⟩).isExecuting = false := by
  refine ⟨(dca_C8 ⟨some "boom", none⟩ ⟨"", true⟩).2.2.1 "boom" rfl (by decide),
    (dca_C8 ⟨some "boom", none⟩ ⟨"", true⟩).2.1⟩

/-! ## The two total-return displays (C9)

The task-result page (`renderMetricsCards`) renders
`value={result.total_return * 100}` while the DCA result page renders
`value={result.total_return}` for the same-named field. -/

def taskResultTotalReturnDisplay (total_return : ℚ) : ℚ := total_return * 100

def dcaResultTotalReturnDisplay (total_return : ℚ) : ℚ := total_return

/-- C9, counterexample: at `total_return = 5` the task-result page shows 500
while the DCA result page shows 5 — the two pages do not display the field at
the same numeric scale. -/
theorem dca_C9_counterexample :
    taskResultTotalReturnDisplay 5 ≠ dcaResultTotalReturnDisplay 5 := by
  rw [taskResultTotalReturnDisplay, dcaResultTotalReturnDisplay]
  norm_num

/-- C9, amended: the task-result page always shows 100 times the value shown
by the DCA result page; the two displayed percentages agree only when
`total_return = 0`. -/
theorem dca_C9_amended (q : ℚ) :
    taskResultTotalReturnDisplay q = 100 * dcaResultTotalReturnDisplay q ∧
    (taskResultTotalReturnDisplay q = dcaResultTotalReturnDisplay q ↔ q = 0) := by
  rw [taskResultTotalReturnDisplay, dcaResultTotalReturnDisplay]
  constructor
  · ring
  · constructor
    · intro h; linarith
    · rintro rfl; ring

/-! ## The drawdown computation of `DCACharts` (C3, C4, part of C7)

`calculateDrawdowns` embeds the function of the same name in the `DCACharts`
component: it walks `daily_prices`, keeps a running `peak` initialised to
`daily_prices[0]`, raises the peak whenever the current price exceeds it, and
pushes `((peak - currentPrice) / peak) * 100` for every index; an empty (or
missing) input yields the empty array.

Crucially, the component computes this series from its `daily_prices` prop
(the instrument's price series), not from `daily_portfolio_values`. -/

def drawdownsGo : ℚ → List ℚ → List ℚ
  | _, [] => []
  | peak, c :: rest =>
    let peak2 := if peak < c then c else peak
    (peak2 - c) / peak2 * 100 :: drawdownsGo peak2 rest

def calculateDrawdowns : List ℚ → List ℚ
  | [] => []
  | p0 :: rest => drawdownsGo p0 (p0 :: rest)

/-- The props `DCAResult.tsx` passes to `DCACharts` that feed the drawdown
chart. -/
structure ChartInputs where
  daily_prices : List ℚ
  daily_portfolio_values : List ℚ

/-- The data series of the max-drawdown analysis chart
(`getDrawdownChartOption`), before the final sign flip for display. -/
def chartDrawdowns (ci : ChartInputs) : List ℚ :=
  calculateDrawdowns ci.daily_prices

/-- `peak_up_to_i = max(value_0 .. value_i)`, the running maximum named by the
spec sentence for C3. -/
def peakUpTo : List ℚ → ℕ → ℚ
  | [], _ => 0
  | a :: _, 0 => a
  | a :: rest, i + 1 => max a (peakUpTo rest i)

/-- The drawdown series exactly as the spec sentence words it: for every
index `i`, `(peak_up_to_i - value_i) / peak_up_to_i × 100`. -/
def specDrawdownSeries (values : List ℚ) : List ℚ :=
  (List.range values.length).map
    (fun i => (peakUpTo values i - values.getD i 0) / peakUpTo values i * 100)

lemma drawdownsGo_eq (l : List ℚ) :
    ∀ peak, drawdownsGo peak l =
      (List.range l.length).map
        (fun i => (max peak (peakUpTo l i) - l.getD i 0) /
          max peak (peakUpTo l i) * 100) := by
  induction l with
  | nil => intro peak; rfl
  | cons c rest ih =>
    intro peak
    have hpeak2 : (if peak < c then c else peak) = max peak c := by
      rcases le_or_lt c peak with h | h
      · rw [if_neg (not_lt.mpr h), max_eq_left h]
      · rw [if_pos h, max_eq_right h.le]
    rw [drawdownsGo]
    simp only [hpeak2]
    rw [List.length_cons, List.range_succ_eq_map, List.map_cons, List.map_map]
    congr 1
    rw [ih (max peak c)]
    apply List.map_congr_left
    intro i _
    simp [peakUpTo, Function.comp, max_assoc]

lemma max_peakUpTo_cons (a : ℚ) (rest : List ℚ) (i : ℕ) :
    max a (peakUpTo (a :: rest) i) = peakUpTo (a :: rest) i := by
  cases i with
  | zero => simp [peakUpTo]
  | succ j => rw [peakUpTo, ← max_assoc, max_self]

lemma calculateDrawdowns_eq_spec (l : List ℚ) :
    calculateDrawdowns l = specDrawdownSeries l := by
  cases l with
  | nil => rfl
  | cons p0 rest =>
    rw [calculateDrawdowns, specDrawdownSeries, drawdownsGo_eq]
    apply List.map_congr_left
    intro i _
    rw [max_peakUpTo_cons]

/-- C3, counterexample: with prices `[10, 5]` and portfolio values
`[100, 100]`, the chart's drawdown series is `[0, 50]` — computed from the
price series — while the series the claim asserts (the same formula over the
daily portfolio valuation series) is `[0, 0]`. -/
theorem dca_C3_counterexample :
    chartDrawdowns ⟨[10, 5], [100, 100]⟩ ≠
      specDrawdownSeries (ChartInputs.daily_portfolio_values ⟨[10, 5], [100, 100]⟩) := by
  have h1 : chartDrawdowns ⟨[10, 5], [100, 100]⟩ = [0, 50] := by
    norm_num [chartDrawdowns, calculateDrawdowns, drawdownsGo]
  have h2 : specDrawdownSeries [100, 100] = [0, 0] := by
    norm_num [specDrawdownSeries, peakUpTo, List.range_succ]
  rw [show ChartInputs.daily_portfolio_values ⟨[10, 5], [100, 100]⟩ = [100, 100] from rfl,
    h1, h2]
  simp

/-- C3, amended: the drawdown series of the max-drawdown analysis chart is
computed from the **daily price series** (`daily_prices`), and for every
index `i` its value equals `(peak_up_to_i − price_i) / peak_up_to_i × 100`
where `peak_up_to_i` is the running maximum of the price series up to and
including `i`; it is not derived from the portfolio valuation series. -/
theorem dca_C3_amended (ci : ChartInputs) :
    chartDrawdowns ci = specDrawdownSeries ci.daily_prices := by
  rw [chartDrawdowns, calculateDrawdowns_eq_spec]

lemma drawdownsGo_nonneg :
    ∀ (l : List ℚ) (peak : ℚ), 0 < peak → ∀ d ∈ drawdownsGo peak l, 0 ≤ d := by
  intro l
  induction l with
  | nil => intro peak _ d hd; simp [drawdownsGo] at hd
  | cons c rest ih =>
    intro peak hpeak d hd
    rw [drawdownsGo] at hd
    by_cases hc : peak < c
    · simp only [if_pos hc] at hd
      rcases List.mem_cons.mp hd with rfl | hmem
      · exact mul_nonneg
          (div_nonneg (by linarith) (by linarith)) (by norm_num)
      · exact ih c (hpeak.trans hc) d hmem
    · simp only [if_neg hc] at hd
      have hcle : c ≤ peak := not_lt.mp hc
      rcases List.mem_cons.mp hd with rfl | hmem
      · exact mul_nonneg (div_nonneg (by linarith) hpeak.le) (by norm_num)
      · exact ih peak hpeak d hmem

lemma drawdownsGo_zero_of_monotone :
    ∀ (l : List ℚ) (peak : ℚ), l.Chain' (· ≤ ·) →
      (∀ h ∈ l.head?, peak ≤ h) → ∀ d ∈ drawdownsGo peak l, d = 0 := by
  intro l
  induction l with
  | nil => intro peak _ _ d hd; simp [drawdownsGo] at hd
  | cons c rest ih =>
    intro peak hchain hhead d hd
    have hpc : peak ≤ c := hhead c rfl
    have hpeak2 : (if peak < c then c else peak) = c := by
      by_cases hlt : peak < c
      · rw [if_pos hlt]
      · rw [if_neg hlt]
        have := not_lt.mp hlt
        linarith
    rw [drawdownsGo] at hd
    simp only [hpeak2] at hd
    obtain ⟨hnext, hchain2⟩ := List.chain'_cons'.mp hchain
    rcases List.mem_cons.mp hd with rfl | hmem
    · rw [sub_self, zero_div, zero_mul]
    · exact ih c hchain2 hnext d hmem

/-- C4: for every price series whose entries are positive, every value of the
drawdown series is nonnegative (hence so is their maximum), and when the
series is non-decreasing every drawdown value equals 0. -/
theorem dca_C4 (l : List ℚ) (hpos : ∀ x ∈ l, 0 < x) :
    (∀ d ∈ calculateDrawdowns l, 0 ≤ d) ∧
    (l.Chain' (· ≤ ·) → ∀ d ∈ calculateDrawdowns l, d = 0) := by
  constructor
  · intro d hd
    cases l with
    | nil => simp [calculateDrawdowns] at hd
    | cons p0 rest =>
      exact drawdownsGo_nonneg (p0 :: rest) p0 (hpos p0 (by simp)) d hd
  · intro hchain d hd
    cases l with
    | nil => simp [calculateDrawdowns] at hd
    | cons p0 rest =>
      exact drawdownsGo_zero_of_monotone (p0 :: rest) p0 hchain
        (by intro h hh; simp at hh; exact le_of_eq hh) d hd

/-- Witness for `dca_C4` at the series `[1, 2, 2]`. -/
theorem dca_C4_witness :
    (∀ d ∈ calculateDrawdowns [1, 2, 2], (0:ℚ) ≤ d) ∧
    (([1, 2, 2] : List ℚ).Chain' (· ≤ ·) →
      ∀ d ∈ calculateDrawdowns [1, 2, 2], d = 0) :=
  dca_C4 [1, 2, 2] (by decide)

/-! ## Degenerate-metrics fallbacks on the result page (C7)

`DCAResult.tsx` renders every numeric report field as
`value={metrics?.field || 0}`: a missing/null (or zero) field displays as the
sentinel 0.  The chart props default missing series to `[]`
(`metrics?.daily_prices || []`), and `calculateDrawdowns` returns `[]` on an
empty input instead of raising. -/

/-- The metric fields of `performance_metrics` consumed by the result page,
each possibly missing/null. -/
structure PerformanceMetricsView where
  max_drawdown : Option ℚ
  sharpe_ratio : Option ℚ
  volatility : Option ℚ
  annual_return : Option ℚ
  daily_prices : Option (List ℚ)

/-- JavaScript `x || 0` on a possibly-missing numeric field. -/
def jsNumOrZero : Option ℚ → ℚ
  | none => 0
  | some q => if q = 0 then 0 else q

def displayedMaxDrawdown (m : PerformanceMetricsView) : ℚ := jsNumOrZero m.max_drawdown

def displayedSharpeRatio (m : PerformanceMetricsView) : ℚ := jsNumOrZero m.sharpe_ratio

def displayedVolatility (m : PerformanceMetricsView) : ℚ := jsNumOrZero m.volatility

def displayedAnnualReturn (m : PerformanceMetricsView) : ℚ := jsNumOrZero m.annual_return

/-- `metrics?.daily_prices || []` (a present array is always truthy in JS). -/
def chartDailyPrices (m : PerformanceMetricsView) : List ℚ := m.daily_prices.getD []

/-- C7: on a result whose metric fields are missing/null, every displayed
report field falls back to the sentinel 0, and the drawdown computation on
the missing (hence empty) daily series returns the empty list. -/
theorem dca_C7 (m : PerformanceMetricsView)
    (h1 : m.max_drawdown = none) (h2 : m.sharpe_ratio = none)
    (h3 : m.volatility = none) (h4 : m.annual_return = none)
    (h5 : m.daily_prices = none) :
    displayedMaxDrawdown m = 0 ∧ displayedSharpeRatio m = 0 ∧
    displayedVolatility m = 0 ∧ displayedAnnualReturn m = 0 ∧
    chartDailyPrices m = [] ∧
    calculateDrawdowns (chartDailyPrices m) = [] ∧
    calculateDrawdowns [] = [] := by
  refine ⟨?_, ?_, ?_, ?_, ?_, ?_, rfl⟩ <;>
    simp [displayedMaxDrawdown, displayedSharpeRatio, displayedVolatility,
      displayedAnnualReturn, chartDailyPrices, jsNumOrZero, calculateDrawdowns,
      h1, h2, h3, h4, h5]

/-- Witness for `dca_C7` at the all-missing metrics record. -/
theorem dca_C7_witness :
    displayedMaxDrawdown ⟨none, none, none, none, none⟩ = 0 ∧
    displayedSharpeRatio ⟨none, none, none, none, none⟩ = 0 ∧
    displayedVolatility ⟨none, none, none, none, none⟩ = 0 ∧
    displayedAnnualReturn ⟨none, none, none, none, none⟩ = 0 ∧
    chartDailyPrices ⟨none, none, none, none, none⟩ = [] ∧
    calculateDrawdowns (chartDailyPrices ⟨none, none, none, none, none⟩) = [] ∧
    calculateDrawdowns [] = [] :=
  dca_C7 ⟨none, none, none, none, none⟩ rfl rfl rfl rfl rfl

/-! ## Benchmark comparison and its rendering (C5)

The render logic embeds `DCAResult.tsx`:
  * the whole benchmark section is rendered only when
    `metrics?.benchmark_comparison && !benchmark_comparison.is_same_strategy`;
  * the comparison verdict line shows "两种策略表现相同" (the strategies
    performed identically) when `return_difference === 0`;
  * the excess-return cell shows the literal string `'0.00'` when
    `return_difference === 0`, and a signed `toFixed(2)` otherwise.

The construction of `benchmark_comparison` itself lives in the backend, which
is not part of this repository's sources; `mkBenchmarkComparison` models it
from the spec. -/

structure BenchmarkComparison where
  benchmark_return : ℚ
  return_difference : ℚ
  exit_strategy_better : Bool
  is_same_strategy : Bool

/-- `Number.prototype.toFixed(2)`: sign, then the magnitude rounded to two
decimals (ties toward the larger candidate, per the ECMAScript algorithm). -/
def toFixed2 (q : ℚ) : String :=
  let sign := if q < 0 then "-" else ""
  let n := (⌊|q| * 100 + 1 / 2⌋).toNat
  let ip := n / 100
  let fp := n % 100
  sign ++ toString ip ++ "." ++ (if fp < 10 then "0" else "") ++ toString fp

/-- Section guard: `metrics?.benchmark_comparison && !is_same_strategy`. -/
def showBenchmarkSection : Option BenchmarkComparison → Bool
  | none => false
  | some b => !b.is_same_strategy

inductive ComparisonVerdict where
  | identical
  | exitBetter
  | holdBetter
deriving DecidableEq

/-- The verdict line of the comparison conclusion block. -/
def comparisonVerdict (b : BenchmarkComparison) : ComparisonVerdict :=
  if b.return_difference = 0 then ComparisonVerdict.identical
  else if b.exit_strategy_better then ComparisonVerdict.exitBetter
  else ComparisonVerdict.holdBetter

/-- The excess-return cell (`超额收益`), without the static `%` suffix. -/
def excessReturnText (b : BenchmarkComparison) : String :=
  if b.return_difference = 0 then "0.00"
  else (if 0 ≤ b.return_difference then "+" else "") ++ toFixed2 b.return_difference

/-- Modelled from the spec: the metrics calculator's `benchmark_comparison`
construction (spec §4.4) — the backend engine is not among this repository's
sources.  A `hold` run compares the strategy to itself: `is_same_strategy`
is true and `return_difference` is defined as exactly 0; any other exit
strategy compares against a parallel pure-hold run. -/
def mkBenchmarkComparison (exit_strategy : String)
    (strategyReturn benchmarkReturn : ℚ) : BenchmarkComparison :=
  if exit_strategy = "hold" then
    { benchmark_return := benchmarkReturn
      return_difference := 0
      exit_strategy_better := false
      is_same_strategy := true }
  else
    { benchmark_return := benchmarkReturn
      return_difference := strategyReturn - benchmarkReturn
      exit_strategy_better := decide (0 < strategyReturn - benchmarkReturn)
      is_same_strategy := false }

/-- C5: under the `hold` exit strategy the benchmark comparison has
`return_difference = 0` and `is_same_strategy = true` and the result page
suppresses the benchmark section; the section renders only when a comparison
is present with `is_same_strategy = false`; and whenever
`return_difference = 0` the page renders the excess return as exactly
`"0.00"` and reports the strategies as performing identically. -/
theorem dca_C5 (strategyReturn benchmarkReturn : ℚ) :
    (mkBenchmarkComparison "hold" strategyReturn benchmarkReturn).return_difference = 0 ∧
    (mkBenchmarkComparison "hold" strategyReturn benchmarkReturn).is_same_strategy = true ∧
    showBenchmarkSection
      (some (mkBenchmarkComparison "hold" strategyReturn benchmarkReturn)) = false ∧
    showBenchmarkSection none = false ∧
    (∀ b : BenchmarkComparison,
      showBenchmarkSection (some b) = true ↔ b.is_same_strategy = false) ∧
    (∀ b : BenchmarkComparison, b.return_difference = 0 →
      excessReturnText b = "0.00" ∧ comparisonVerdict b = ComparisonVerdict.identical) := by
  refine ⟨rfl, rfl, rfl, rfl, ?_, ?_⟩
  · intro b
    cases hb : b.is_same_strategy <;> simp [showBenchmarkSection, hb]
  · intro b hb
    constructor
    · rw [excessReturnText, if_pos hb]
    · rw [comparisonVerdict, if_pos hb]

/-- Witness for `dca_C5` at concrete returns and a concrete zero-difference
comparison. -/
theorem dca_C5_witness :
    showBenchmarkSection (some (mkBenchmarkComparison "hold" 7 3)) = false ∧
    excessReturnText ⟨3, 0, false, false⟩ = "0.00" ∧
    comparisonVerdict ⟨3, 0, false, false⟩ = ComparisonVerdict.identical := by
  refine ⟨(dca_C5 7 3).2.2.1, ?_, ?_⟩
  · exact ((dca_C5 7 3).2.2.2.2.2 ⟨3, 0, false, false⟩ rfl).1
  · exact ((dca_C5 7 3).2.2.2.2.2 ⟨3, 0, false, false⟩ rfl).2

/-! ## The DCA simulation engine (C6)

The engine itself is not among this repository's sources (the repository is
frontend-only); the definitions below are modelled from the specification,
§4.2 and §4.3, restricted to what the claim touches: scheduled buys with
floor-divided whole shares, the insufficient-cash skip, and a one-shot
profit-target exit (the simplest strategy variant that produces sells;
`profit_target := none` is the `hold` strategy, which never exits). -/

structure InvestmentRecord where
  price : ℚ
  shares : ℕ
  amount : ℚ

structure SellRecord where
  price : ℚ
  shares_sold : ℕ
  amount : ℚ

/-- A recorded engine event; the claim only involves the "skipped
investment" event emitted when cash is insufficient for a scheduled buy. -/
inductive EngineEvent where
  | skipped
deriving DecidableEq

structure EngineConfig where
  investment_amount : ℚ
  initial_cash : ℚ
  profit_target : Option ℚ

structure EngineState where
  cash : ℚ
  shares_held : ℕ
  total_invested : ℚ
  investment_records : List InvestmentRecord
  sell_records : List SellRecord
  events : List EngineEvent
  exited : Bool

/-- One day of the trading calendar: the closing price and whether a
(possibly rolled-forward) scheduled buy falls on this day. -/
structure TradingDay where
  price : ℚ
  scheduled : Bool

def initialState (cfg : EngineConfig) : EngineState :=
  { cash := cfg.initial_cash, shares_held := 0, total_invested := 0,
    investment_records := [], sell_records := [], events := [], exited := false }

/-- Modelled from the spec (§4.2 step 1): `shares = floor(investment_amount /
price)`, `amount = shares × price` (transaction cost zero), deducted from
cash; if cash is insufficient a "skipped" event is emitted instead and the
run continues. -/
def buyShares (cfg : EngineConfig) (price : ℚ) : ℕ :=
  (⌊cfg.investment_amount / price⌋).toNat

def buyAmount (cfg : EngineConfig) (price : ℚ) : ℚ :=
  (buyShares cfg price : ℚ) * price

def buyStep (cfg : EngineConfig) (price : ℚ) (st : EngineState) : EngineState :=
  if buyAmount cfg price ≤ st.cash then
    { st with cash := st.cash - buyAmount cfg price
              shares_held := st.shares_held + buyShares cfg price
              total_invested := st.total_invested + buyAmount cfg price
              investment_records := st.investment_records ++
                [{ price := price, shares := buyShares cfg price,
                   amount := buyAmount cfg price }] }
  else
    { st with events := st.events ++ [EngineEvent.skipped] }

def portfolioValue (price : ℚ) (st : EngineState) : ℚ :=
  st.cash + (st.shares_held : ℚ) * price

/-- Modelled from the spec (§4.3): unrealized return
`(portfolio_value − total_invested) / total_invested`, in percent, guarded
when nothing has been invested yet. -/
def unrealizedReturnPct (price : ℚ) (st : EngineState) : ℚ :=
  if st.total_invested = 0 then 0
  else (portfolioValue price st - st.total_invested) / st.total_invested * 100

/-- Modelled from the spec (§4.3): `hold` never exits; `profit_target` exits
100% of the position once the unrealized return reaches the target, and is
inert afterward. -/
def exitStep (cfg : EngineConfig) (price : ℚ) (st : EngineState) : EngineState :=
  match cfg.profit_target with
  | none => st
  | some target =>
    if st.exited then st
    else if target ≤ unrealizedReturnPct price st then
      { st with cash := st.cash + (st.shares_held : ℚ) * price
                shares_held := 0
                exited := true
                sell_records := st.sell_records ++
                  [{ price := price, shares_sold := st.shares_held,
                     amount := (st.shares_held : ℚ) * price }] }
    else st

/-- Modelled from the spec (§4.2): one trading day — the scheduled buy, then
the exit-strategy evaluation. -/
def dayStep (cfg : EngineConfig) (st : EngineState) (d : TradingDay) : EngineState :=
  exitStep cfg d.price (if d.scheduled then buyStep cfg d.price st else st)

def simulate (cfg : EngineConfig) (days : List TradingDay) : EngineState :=
  days.foldl (dayStep cfg) (initialState cfg)

def recordsAmountSum (l : List InvestmentRecord) : ℚ :=
  (l.map InvestmentRecord.amount).sum

def sellAmountSum (l : List SellRecord) : ℚ :=
  (l.map SellRecord.amount).sum

/-- The inductive invariant of the simulation loop used below. -/
def EngineInv (cfg : EngineConfig) (st : EngineState) : Prop :=
  recordsAmountSum st.investment_records = st.total_invested ∧
  0 ≤ st.cash ∧
  st.total_invested + st.cash = cfg.initial_cash + sellAmountSum st.sell_records ∧
  (cfg.profit_target = none → st.sell_records = [])

lemma buyAmount_nonneg (cfg : EngineConfig) (price : ℚ) (hp : 0 ≤ price) :
    0 ≤ buyAmount cfg price :=
  mul_nonneg (by positivity) hp

lemma recordsAmountSum_append (l : List InvestmentRecord) (r : InvestmentRecord) :
    recordsAmountSum (l ++ [r]) = recordsAmountSum l + r.amount := by
  simp [recordsAmountSum]

lemma sellAmountSum_append (l : List SellRecord) (r : SellRecord) :
    sellAmountSum (l ++ [r]) = sellAmountSum l + r.amount := by
  simp [sellAmountSum]

lemma buyStep_inv (cfg : EngineConfig) (price : ℚ) (st : EngineState)
    (hinv : EngineInv cfg st) :
    EngineInv cfg (buyStep cfg price st) := by
  obtain ⟨hsum, hcash, hflow, hhold⟩ := hinv
  rw [buyStep]
  by_cases hb : buyAmount cfg price ≤ st.cash
  · rw [if_pos hb]
    refine ⟨?_, ?_, ?_, hhold⟩
    · rw [recordsAmountSum_append, hsum]
    · simpa using sub_nonneg.mpr hb
    · show st.total_invested + buyAmount cfg price +
        (st.cash - buyAmount cfg price) = _
      rw [← hflow]; ring
  · rw [if_neg hb]
    exact ⟨hsum, hcash, hflow, hhold⟩

lemma exitStep_inv (cfg : EngineConfig) (price : ℚ) (st : EngineState)
    (hp : 0 ≤ price) (hinv : EngineInv cfg st) :
    EngineInv cfg (exitStep cfg price st) := by
  obtain ⟨hsum, hcash, hflow, hhold⟩ := hinv
  cases htarget : cfg.profit_target with
  | none =>
    simp only [exitStep, htarget]
    exact ⟨hsum, hcash, hflow, hhold⟩
  | some target =>
    simp only [exitStep, htarget]
    by_cases hex : st.exited = true
    · rw [if_pos hex]
      exact ⟨hsum, hcash, hflow, fun h => hhold h⟩
    · rw [if_neg hex]
      by_cases htrig : target ≤ unrealizedReturnPct price st
      · rw [if_pos htrig]
        refine ⟨hsum, ?_, ?_, fun h => by rw [h] at htarget; cases htarget⟩
        · have hsp : 0 ≤ (st.shares_held : ℚ) * price := mul_nonneg (by positivity) hp
          show 0 ≤ st.cash + (st.shares_held : ℚ) * price
          linarith
        · show st.total_invested + (st.cash + (st.shares_held : ℚ) * price) = _
          rw [sellAmountSum_append]
          show _ = cfg.initial_cash + (sellAmountSum st.sell_records +
            (st.shares_held : ℚ) * price)
          linarith
      · rw [if_neg htrig]
        exact ⟨hsum, hcash, hflow, hhold⟩

lemma dayStep_inv (cfg : EngineConfig) (st : EngineState) (d : TradingDay)
    (hp : 0 ≤ d.price) (hinv : EngineInv cfg st) :
    EngineInv cfg (dayStep cfg st d) := by
  rw [dayStep]
  by_cases hs : d.scheduled = true
  · rw [if_pos hs]
    exact exitStep_inv cfg d.price _ hp (buyStep_inv cfg d.price st hinv)
  · rw [if_neg hs]
    exact exitStep_inv cfg d.price st hp hinv

lemma foldl_dayStep_inv (cfg : EngineConfig) :
    ∀ (days : List TradingDay) (st : EngineState), (∀ d ∈ days, 0 ≤ d.price) →
      EngineInv cfg st → EngineInv cfg (days.foldl (dayStep cfg) st) := by
  intro days
  induction days with
  | nil => intro st _ h; exact h
  | cons d rest ih =>
    intro st hp h
    rw [List.foldl_cons]
    exact ih _ (fun x hx => hp x (List.mem_cons_of_mem d hx))
      (dayStep_inv cfg st d (hp d (List.mem_cons_self d rest)) h)

lemma simulate_inv (cfg : EngineConfig) (days : List TradingDay)
    (hcash : 0 ≤ cfg.initial_cash) (hp : ∀ d ∈ days, 0 ≤ d.price) :
    EngineInv cfg (simulate cfg days) := by
  rw [simulate]
  refine foldl_dayStep_inv cfg days (initialState cfg) hp ⟨rfl, hcash, ?_, fun _ => rfl⟩
  show (0 : ℚ) + cfg.initial_cash = cfg.initial_cash + sellAmountSum []
  simp [sellAmountSum]

/-- C6, counterexample: with `initial_cash = 100`, `investment_amount = 100`
and a 50% profit-target exit strategy, prices `1, 2, 1` with buys scheduled
on days 1 and 3 give: buy 100 shares for 100 on day 1, sell them for 200 on
day 2, and buy again for 100 on day 3 — `total_invested = 200 > 100 =
initial_cash`, refuting "total_invested ≤ initial_cash always holds". -/
theorem dca_C6_counterexample :
    ¬ (simulate ⟨100, 100, some 50⟩
        [⟨1, true⟩, ⟨2, false⟩, ⟨1, true⟩]).total_invested ≤
      (⟨100, 100, some 50⟩ : EngineConfig).initial_cash := by
  have hshares : buyShares ⟨100, 100, some 50⟩ 1 = 100 := by
    rw [buyShares]
    norm_num
    rfl
  have hamount : buyAmount ⟨100, 100, some 50⟩ 1 = 100 := by
    rw [buyAmount, hshares]; norm_num
  have hday1 : dayStep ⟨100, 100, some 50⟩ (initialState ⟨100, 100, some 50⟩) ⟨1, true⟩ =
      { cash := 0, shares_held := 100, total_invested := 100,
        investment_records := [{ price := 1, shares := 100, amount := 100 }],
        sell_records := [], events := [], exited := false } := by
    rw [dayStep]
    have hbuy : buyStep ⟨100, 100, some 50⟩ 1 (initialState ⟨100, 100, some 50⟩) =
        { cash := 0, shares_held := 100, total_invested := 100,
          investment_records := [{ price := 1, shares := 100, amount := 100 }],
          sell_records := [], events := [], exited := false } := by
      rw [buyStep, if_pos (by rw [hamount]; norm_num [initialState])]
      simp [initialState, hamount, hshares]
    show exitStep _ 1 (buyStep _ 1 _) = _
    rw [hbuy, exitStep]
    norm_num [unrealizedReturnPct, portfolioValue]
  have hday2 : dayStep ⟨100, 100, some 50⟩
      { cash := 0, shares_held := 100, total_invested := 100,
        investment_records := [{ price := 1, shares := 100, amount := 100 }],
        sell_records := [], events := [], exited := false } ⟨2, false⟩ =
      { cash := 200, shares_held := 0, total_invested := 100,
        investment_records := [{ price := 1, shares := 100, amount := 100 }],
        sell_records := [{ price := 2, shares_sold := 100, amount := 200 }],
        events := [], exited := true } := by
    rw [dayStep]
    show exitStep _ 2 _ = _
    rw [exitStep]
    norm_num [unrealizedReturnPct, portfolioValue]
  have hday3 : dayStep ⟨100, 100, some 50⟩
      { cash := 200, shares_held := 0, total_invested := 100,
        investment_records := [{ price := 1, shares := 100, amount := 100 }],
        sell_records := [{ price := 2, shares_sold := 100, amount := 200 }],
        events := [], exited := true } ⟨1, true⟩ =
      { cash := 100, shares_held := 100, total_invested := 200,
        investment_records := [{ price := 1, shares := 100, amount := 100 },
          { price := 1, shares := 100, amount := 100 }],
        sell_records := [{ price := 2, shares_sold := 100, amount := 200 }],
        events := [], exited := true } := by
    rw [dayStep]
    have hbuy : buyStep ⟨100, 100, some 50⟩ 1
        { cash := 200, shares_held := 0, total_invested := 100,
          investment_records := [{ price := 1, shares := 100, amount := 100 }],
          sell_records := [{ price := 2, shares_sold := 100, amount := 200 }],
          events := [], exited := true } =
        { cash := 100, shares_held := 100, total_invested := 200,
          investment_records := [{ price := 1, shares := 100, amount := 100 },
            { price := 1, shares := 100, amount := 100 }],
          sell_records := [{ price := 2, shares_sold := 100, amount := 200 }],
          events := [], exited := true } := by
      rw [buyStep, if_pos (by rw [hamount]; norm_num)]
      simp [hamount, hshares]
      norm_num
    show exitStep _ 1 (buyStep _ 1 _) = _
    rw [hbuy, exitStep]
    norm_num
  have hrun : simulate ⟨100, 100, some 50⟩ [⟨1, true⟩, ⟨2, false⟩, ⟨1, true⟩] =
      { cash := 100, shares_held := 100, total_invested := 200,
        investment_records := [{ price := 1, shares := 100, amount := 100 },
          { price := 1, shares := 100, amount := 100 }],
        sell_records := [{ price := 2, shares_sold := 100, amount := 200 }],
        events := [], exited := true } := by
    rw [simulate, List.foldl_cons, hday1, List.foldl_cons, hday2,
      List.foldl_cons, hday3, List.foldl_nil]
  rw [hrun]
  norm_num

/-- C6, amended: over every trading calendar with nonnegative prices and
every config with nonnegative initial cash, the sum of the investment
records' amounts always equals `total_invested`; the engine never overdraws
(cash stays nonnegative, and a scheduled buy with insufficient cash emits a
"skipped" event, leaving cash, position and records untouched, instead of
failing the run); money is conserved as `total_invested + cash =
initial_cash + sell proceeds`; and `total_invested ≤ initial_cash` holds for
the `hold` strategy (no sells) — though not in general, since reinvested
sell proceeds can raise `total_invested` above `initial_cash`. -/
theorem dca_C6_amended (cfg : EngineConfig) (days : List TradingDay)
    (hcash : 0 ≤ cfg.initial_cash) (hp : ∀ d ∈ days, 0 ≤ d.price) :
    recordsAmountSum (simulate cfg days).investment_records =
      (simulate cfg days).total_invested ∧
    0 ≤ (simulate cfg days).cash ∧
    (simulate cfg days).total_invested + (simulate cfg days).cash =
      cfg.initial_cash + sellAmountSum (simulate cfg days).sell_records ∧
    (cfg.profit_target = none →
      (simulate cfg days).total_invested ≤ cfg.initial_cash) ∧
    (∀ price st, st.cash < buyAmount cfg price →
      buyStep cfg price st = { st with events := st.events ++ [EngineEvent.skipped] }) := by
  obtain ⟨hsum, hc, hflow, hhold⟩ := simulate_inv cfg days hcash hp
  refine ⟨hsum, hc, hflow, ?_, ?_⟩
  · intro hnone
    have hsell : sellAmountSum (simulate cfg days).sell_records = 0 := by
      rw [hhold hnone]; rfl
    rw [hsell, add_zero] at hflow
    linarith
  · intro price st hlt
    rw [buyStep, if_neg (not_le.mpr hlt)]

/-- Witness for `dca_C6_amended`: a two-day hold run at price 1 with a buy
scheduled on day 1. -/
theorem dca_C6_amended_witness :
    recordsAmountSum (simulate ⟨100, 1000, none⟩
        [⟨1, true⟩, ⟨1, false⟩]).investment_records =
      (simulate ⟨100, 1000, none⟩ [⟨1, true⟩, ⟨1, false⟩]).total_invested ∧
    0 ≤ (simulate ⟨100, 1000, none⟩ [⟨1, true⟩, ⟨1, false⟩]).cash ∧
    (simulate ⟨100, 1000, none⟩ [⟨1, true⟩, ⟨1, false⟩]).total_invested +
        (simulate ⟨100, 1000, none⟩ [⟨1, true⟩, ⟨1, false⟩]).cash =
      (⟨100, 1000, none⟩ : EngineConfig).initial_cash +
        sellAmountSum (simulate ⟨100, 1000, none⟩
          [⟨1, true⟩, ⟨1, false⟩]).sell_records ∧
    ((⟨100, 1000, none⟩ : EngineConfig).profit_target = none →
      (simulate ⟨100, 1000, none⟩ [⟨1, true⟩, ⟨1, false⟩]).total_invested ≤
        (⟨100, 1000, none⟩ : EngineConfig).initial_cash) ∧
    (∀ price st, st.cash < buyAmount (⟨100, 1000, none⟩ : EngineConfig) price →
      buyStep ⟨100, 1000, none⟩ price st =
        { st with events := st.events ++ [EngineEvent.skipped] }) :=
  dca_C6_amended ⟨100, 1000, none⟩ [⟨1, true⟩, ⟨1, false⟩] (by norm_num)
    (by intro d hd; fin_cases hd <;> norm_num)

/-! ## The loading animation's internal progress (C10)

`progressStep` embeds the interval callback of `MatrixNinjaAnimation`: during
the first `fastDuration` (3000 ms) the progress is `(elapsedTime /
fastDuration) * 75`; afterwards it is `Math.min(prev + 0.5, 95)`.
`runInternalProgress` iterates the callback from the initial state 0 over a
sequence of observed elapsed times.  A separate effect invokes `onComplete`
only when the externally supplied `progress` prop equals 100. -/

def fastDuration : ℚ := 3000

def fastProgressCap : ℚ := 75

def slowIncrement : ℚ := 1 / 2

def progressStep (prev elapsedTime : ℚ) : ℚ :=
  if elapsedTime ≤ fastDuration then elapsedTime / fastDuration * fastProgressCap
  else min (prev + slowIncrement) 95

def runInternalProgress (elapsedTimes : List ℚ) : ℚ :=
  elapsedTimes.foldl progressStep 0

/-- The completion effect: `if (progress === 100) { ... onComplete() }`. -/
def onCompleteFires (progress : Option ℚ) : Bool :=
  decide (progress = some 100)

lemma progressStep_le (prev elapsedTime : ℚ) (hnn : 0 ≤ elapsedTime)
    (_hprev : prev ≤ 95) : progressStep prev elapsedTime ≤ 95 := by
  rw [progressStep]
  by_cases h : elapsedTime ≤ fastDuration
  · rw [if_pos h]
    have h1 : elapsedTime / fastDuration ≤ 1 := by
      rw [div_le_one (by norm_num [fastDuration])]
      simpa [fastDuration] using h
    have h2 : 0 ≤ elapsedTime / fastDuration :=
      div_nonneg hnn (by norm_num [fastDuration])
    calc elapsedTime / fastDuration * fastProgressCap
        ≤ 1 * fastProgressCap := by
          exact mul_le_mul_of_nonneg_right h1 (by norm_num [fastProgressCap])
      _ ≤ 95 := by norm_num [fastProgressCap]
  · rw [if_neg h]
    exact min_le_right _ _

lemma foldl_progressStep_le :
    ∀ (ts : List ℚ) (acc : ℚ), (∀ t ∈ ts, 0 ≤ t) → acc ≤ 95 →
      ts.foldl progressStep acc ≤ 95 := by
  intro ts
  induction ts with
  | nil => intro acc _ h; simpa using h
  | cons t rest ih =>
    intro acc hnn hacc
    rw [List.foldl_cons]
    exact ih _ (fun x hx => hnn x (List.mem_cons_of_mem t hx))
      (progressStep_le acc t (hnn t (List.mem_cons_self t rest)) hacc)

/-- C10: over every sequence of nonnegative elapsed times the internally
generated progress never exceeds 95; a step in the fast phase yields at most
75, a step afterwards yields exactly `min(previous + 0.5, 95)`; and the
completion callback's guard holds only for an externally supplied progress
equal to 100 (in particular never when no external progress is supplied). -/
theorem dca_C10 (ts : List ℚ) (hnn : ∀ t ∈ ts, 0 ≤ t) :
    runInternalProgress ts ≤ 95 ∧
    (∀ prev t, 0 ≤ t → t ≤ fastDuration → progressStep prev t ≤ 75) ∧
    (∀ prev t, fastDuration < t →
      progressStep prev t = min (prev + slowIncrement) 95) ∧
    (∀ p : Option ℚ, onCompleteFires p = true ↔ p = some 100) ∧
    onCompleteFires none = false := by
  refine ⟨foldl_progressStep_le ts 0 hnn (by norm_num), ?_, ?_, ?_, rfl⟩
  · intro prev t hnn2 hfast
    rw [progressStep, if_pos hfast]
    have h1 : t / fastDuration ≤ 1 := by
      rw [div_le_one (by norm_num [fastDuration])]
      simpa [fastDuration] using hfast
    calc t / fastDuration * fastProgressCap
        ≤ 1 * fastProgressCap := by
          exact mul_le_mul_of_nonneg_right h1 (by norm_num [fastProgressCap])
      _ = 75 := by norm_num [fastProgressCap]
  · intro prev t hslow
    rw [progressStep, if_neg (not_le.mpr hslow)]
  · intro p
    rw [onCompleteFires]
    exact decide_eq_true_iff

/-- Witness for `dca_C10` over the elapsed times 1500 ms and 4000 ms. -/
theorem dca_C10_witness :
    runInternalProgress [1500, 4000] ≤ 95 ∧
    progressStep 0 1500 ≤ 75 ∧
    progressStep 75 4000 = min (75 + slowIncrement) 95 ∧
    onCompleteFires (some 100) = true ∧
    onCompleteFires none = false := by
  have h := dca_C10 [1500, 4000] (by intro t ht; fin_cases ht <;> norm_num)
  exact ⟨h.1, h.2.1 0 1500 (by norm_num) (by norm_num [fastDuration]),
    h.2.2.1 75 4000 (by norm_num [fastDuration]),
    (h.2.2.2.1 (some 100)).mpr rfl, h.2.2.2.2⟩

end Backtesting
